import Mathlib

/-!
Verification of the FX trading simulator server (tick loop, candle
aggregation, position evaluation/settlement, wallet endpoints).

Prices and monetary amounts are IEEE-754 doubles in the source; here they
are embedded as rationals (`ℚ`), which models the source's arithmetic and
comparisons exactly on the finite values the system manipulates.  The
special JavaScript numeric values that the price-generator guard inspects
(`NaN`, `undefined`, the infinities) are modelled explicitly by `JSVal`.
-/

namespace FxTrader

/-- A JavaScript value as stored in the in-memory `prices` record: a finite
number, `NaN`, one of the infinities, or a non-number (`undefined`). -/
inductive JSVal where
  | num (q : ℚ)
  | nan
  | posInf
  | negInf
  | undef
deriving Repr, DecidableEq

/-- The `defaults` record inside the tick callback (reset values used when a
stored price is detected as corrupted), including the `|| 1.0` fallback for
an asset missing from the record. -/
def defaults (asset : String) : ℚ :=
  if asset = "EUR/USD" then 108542 / 100000
  else if asset = "GBP/USD" then 126415 / 100000
  else if asset = "USD/JPY" then 150243 / 1000
  else if asset = "BTC/USD" then 6245050 / 100
  else if asset = "ETH/USD" then 342075 / 100
  else if asset = "GOLD" then 203450 / 100
  else if asset = "OIL" then 7845 / 100
  else 1

/-- Substring scan over the character list: true when `"USD/"` occurs
contiguously. -/
def containsUSDSlash : List Char → Bool
  | [] => false
  | c :: rest => ((c :: rest).take 4 == "USD/".toList) || containsUSDSlash rest

/-- Models `asset.includes("USD/")`. -/
def includesUSDSlash (asset : String) : Bool :=
  containsUSDSlash asset.toList

/-- Per-asset volatility coefficient:
`asset.includes("USD/") ? 0.0001 : 0.001`. -/
def volatility (asset : String) : ℚ :=
  if includesUSDSlash asset then 1 / 10000 else 1 / 1000

/-- The corruption guard of the tick callback:
`typeof currentPrice !== 'number' || isNaN(currentPrice)`.  True exactly for
a non-number (`undefined`) or `NaN`; the infinities and every finite number
(positive or not) pass the guard. -/
def jsCorrupted : JSVal → Bool
  | JSVal.num _ => false
  | JSVal.nan => true
  | JSVal.posInf => false
  | JSVal.negInf => false
  | JSVal.undef => true

/-- One price-generator step for one asset (tick callback, price section).
`u` is the `Math.random()` draw, in `[0, 1)`.  A corrupted stored value is
reset to the default; a finite value is perturbed by
`(u - 0.5) * (price * volatility)`.  An infinite stored value passes the
guard and is perturbed following IEEE-754: `±∞ * volatility = ±∞`,
`(u - 0.5) * ±∞` is `±∞` (sign by `u - 0.5`) or `NaN` when `u = 0.5`, and
`±∞ + ∓∞ = NaN`. -/
def advance (asset : String) (v : JSVal) (u : ℚ) : JSVal :=
  match v with
  | JSVal.nan => JSVal.num (defaults asset)
  | JSVal.undef => JSVal.num (defaults asset)
  | JSVal.num q => JSVal.num (q + (u - 1 / 2) * (q * volatility asset))
  | JSVal.posInf => if 1 / 2 < u then JSVal.posInf else JSVal.nan
  | JSVal.negInf => if 1 / 2 < u then JSVal.negInf else JSVal.nan

/-- One OHLC candle (`{time, open, high, low, close}`). -/
structure Candle where
  time : ℕ
  «open» : ℚ
  high : ℚ
  low : ℚ
  close : ℚ
deriving Repr, DecidableEq

/-- A fresh candle at a period boundary: `open = high = low = close = price`. -/
def newCandle (t : ℕ) (price : ℚ) : Candle :=
  { time := t, «open» := price, high := price, low := price, close := price }

/-- The in-place update of the active candle:
`high = max(high, price)`, `low = min(low, price)`, `close = price`. -/
def bump (price : ℚ) (c : Candle) : Candle :=
  { c with high := max c.high price, low := min c.low price, close := price }

/-- Applies `bump` to the last element of a series (the source mutates
`candles[candles.length - 1]` in place). -/
def bumpLast (price : ℚ) : List Candle → List Candle
  | [] => []
  | [c] => [bump price c]
  | c :: rest => c :: bumpLast price rest

/-- The source's branch condition `!lastCandle || lastCandle.time < periodStart`. -/
def needNew (candles : List Candle) (periodStart : ℕ) : Bool :=
  match candles.getLast? with
  | none => true
  | some last => decide (last.time < periodStart)

/-- One candle-aggregation step for a single (instrument, timeframe) series
(tick callback, candle section).  Computes
`periodStart = floor(now / tfSeconds) * tfSeconds`; appends a fresh candle
when the series is empty or its last candle is older than `periodStart`
(evicting the oldest entry if the length then exceeds 200), otherwise
updates the last candle in place. -/
def updateCandles (tfSeconds : ℕ) (price : ℚ) (now : ℕ) (candles : List Candle) :
    List Candle :=
  let periodStart := now / tfSeconds * tfSeconds
  if needNew candles periodStart then
    let pushed := candles ++ [newCandle periodStart price]
    if 200 < pushed.length then pushed.drop 1 else pushed
  else
    bumpLast price candles

/-- Bounds invariant of a single candle: `low ≤ open, close ≤ high`. -/
def ohlcOK (c : Candle) : Prop :=
  c.low ≤ c.«open» ∧ c.«open» ≤ c.high ∧ c.low ≤ c.close ∧ c.close ≤ c.high

instance : DecidablePred ohlcOK := fun c =>
  inferInstanceAs (Decidable
    (c.low ≤ c.«open» ∧ c.«open» ≤ c.high ∧ c.low ≤ c.close ∧ c.close ≤ c.high))

/-- Invariant of a whole (instrument, timeframe) series: every candle is
well formed, times are strictly increasing and aligned to the timeframe,
and the length is bounded by 200. -/
def seriesInv (tfSeconds : ℕ) (cs : List Candle) : Prop :=
  (∀ c ∈ cs, ohlcOK c) ∧
  cs.Chain' (fun a b => a.time < b.time) ∧
  (∀ c ∈ cs, c.time % tfSeconds = 0) ∧
  cs.length ≤ 200

instance (tfSeconds : ℕ) (cs : List Candle) : Decidable (seriesInv tfSeconds cs) :=
  inferInstanceAs (Decidable
    ((∀ c ∈ cs, ohlcOK c) ∧
     cs.Chain' (fun a b : Candle => a.time < b.time) ∧
     (∀ c ∈ cs, c.time % tfSeconds = 0) ∧
     cs.length ≤ 200))

/-- The candle series obtained from the empty series by a sequence of ticks,
each tick supplying a price and a clock reading. -/
def runTicks (tfSeconds : ℕ) (ticks : List (ℚ × ℕ)) : List Candle :=
  ticks.foldl (fun cs t => updateCandles tfSeconds t.1 t.2 cs) []

/-- The `timeframes` record: named durations in seconds. -/
def timeframes : List (String × ℕ) :=
  [("1m", 60), ("5m", 300), ("15m", 900), ("30m", 1800),
   ("1h", 3600), ("3h", 10800), ("12h", 43200), ("24h", 86400)]

/-- The per-asset body of the tick callback: price advance plus candle
aggregation.  The candle map `cd` carries one series per timeframe duration.
A corrupted stored price is reset to the default and the callback returns
early, leaving every candle series of the asset untouched this tick.
Otherwise the price is perturbed and every timeframe series is updated once
with the new price.  (The branch where the advanced price is non-finite
would write non-finite values into candles; those writes are outside the
rational embedding and no theorem below touches that branch.) -/
def tickAsset (asset : String) (v : JSVal) (cd : List (ℕ × List Candle))
    (u : ℚ) (now : ℕ) : JSVal × List (ℕ × List Candle) :=
  if jsCorrupted v then
    (JSVal.num (defaults asset), cd)
  else
    match advance asset v u with
    | JSVal.num q => (JSVal.num q, cd.map (fun e => (e.1, updateCandles e.1 q now e.2)))
    | w => (w, cd)

/-- Position direction (the `type` column, `'BUY'` or `'SELL'`). -/
inductive PosType where
  | BUY
  | SELL
deriving Repr, DecidableEq

/-- Position status (the `status` column, `'open'` or `'closed'`). -/
inductive PStatus where
  | «open»
  | closed
deriving Repr, DecidableEq

/-- A row of the `positions` table (columns the core reads or writes). -/
structure Position where
  id : ℕ
  user_id : ℕ
  asset : String
  size : ℚ
  type : PosType
  entry_price : ℚ
  take_profit : Option ℚ
  stop_loss : Option ℚ
  close_price : Option ℚ
  status : PStatus
  pnl : ℚ
  created_at : ℕ
  closed_at : Option ℕ
deriving Repr, DecidableEq

/-- JavaScript truthiness of a nullable numeric column: `null` and `0` are
falsy, every other number is truthy. -/
def truthy : Option ℚ → Bool
  | none => false
  | some v => decide (v ≠ 0)

/-- The TP/SL check of the tick callback for one open position: returns
`some closePrice` when the position should be auto-closed at `closePrice`,
`none` otherwise.  For BUY: take-profit first (`current ≥ tp`), then
stop-loss (`current ≤ sl`); for SELL the comparisons invert.  Thresholds
are tested with JavaScript truthiness (`pos.take_profit && ...`). -/
def evalClose (pos : Position) (current : ℚ) : Option ℚ :=
  match pos.type with
  | PosType.BUY =>
    if truthy pos.take_profit && decide (current ≥ pos.take_profit.getD 0) then
      pos.take_profit
    else if truthy pos.stop_loss && decide (current ≤ pos.stop_loss.getD 0) then
      pos.stop_loss
    else none
  | PosType.SELL =>
    if truthy pos.take_profit && decide (current ≤ pos.take_profit.getD 0) then
      pos.take_profit
    else if truthy pos.stop_loss && decide (current ≥ pos.stop_loss.getD 0) then
      pos.stop_loss
    else none

/-- Realized profit/loss as computed by `POST /api/positions/close`. -/
def pnlManualClose (pos : Position) (close_price : ℚ) : ℚ :=
  match pos.type with
  | PosType.BUY => (close_price - pos.entry_price) * pos.size
  | PosType.SELL => (pos.entry_price - close_price) * pos.size

/-- Realized profit/loss as computed by the TP/SL branch of the tick
callback. -/
def pnlAutoClose (pos : Position) (closePrice : ℚ) : ℚ :=
  match pos.type with
  | PosType.BUY => (closePrice - pos.entry_price) * pos.size
  | PosType.SELL => (pos.entry_price - closePrice) * pos.size

/-- A row of the `users` table (the columns the core reads or writes:
id and balance). -/
structure User where
  id : ℕ
  balance : ℚ
deriving Repr, DecidableEq

/-- Transaction kind (the `type` column of `transactions`). -/
inductive TxType where
  | deposit
  | withdrawal
deriving Repr, DecidableEq

/-- Transaction status (the `status` column of `transactions`). -/
inductive TxStatus where
  | pending
  | approved
  | rejected
deriving Repr, DecidableEq

/-- A row of the `transactions` table. -/
structure Tx where
  id : ℕ
  user_id : ℕ
  type : TxType
  amount : ℚ
  status : TxStatus
  method : String
  reference : String
deriving Repr, DecidableEq

/-- The SQLite database state the endpoints read and write.  `nextPosId`
and `nextTxId` model the AUTOINCREMENT counters. -/
structure DBState where
  users : List User
  positions : List Position
  transactions : List Tx
  nextPosId : ℕ
  nextTxId : ℕ
deriving Repr, DecidableEq

/-- `SELECT ... FROM users WHERE id = ?`. -/
def findUser (st : DBState) (uid : ℕ) : Option User :=
  st.users.find? (fun u => u.id == uid)

/-- `SELECT * FROM positions WHERE id = ?`. -/
def getPosition (st : DBState) (pid : ℕ) : Option Position :=
  st.positions.find? (fun p => p.id == pid)

/-- `SELECT * FROM transactions WHERE id = ?`. -/
def getTx (st : DBState) (txId : ℕ) : Option Tx :=
  st.transactions.find? (fun x => x.id == txId)

/-- The balance column of the owner's row. -/
def balanceOf (st : DBState) (uid : ℕ) : Option ℚ :=
  (findUser st uid).map User.balance

/-- Models the better-sqlite3 `db.transaction(fn)()` wrapper: the steps run
in order as one unit; if the unit faults at any point (modelled by
`faultAt = some k`), every step already executed is rolled back and the
database is left exactly as it was before the unit started. -/
def dbTransaction (steps : List (DBState → DBState)) (faultAt : Option ℕ)
    (st : DBState) : DBState :=
  match faultAt with
  | none => steps.foldl (fun s f => f s) st
  | some _ => st

/-- `UPDATE positions SET status = 'closed', close_price = ?, pnl = ?,
closed_at = CURRENT_TIMESTAMP WHERE id = ?` applied to one row. -/
def closeRow (cp pnl : ℚ) (t : ℕ) (p : Position) : Position :=
  { p with status := PStatus.closed, close_price := some cp, pnl := pnl,
           closed_at := some t }

/-- The positions UPDATE statement over the whole table. -/
def updatePositionRow (pid : ℕ) (cp pnl : ℚ) (t : ℕ) (st : DBState) : DBState :=
  { st with positions :=
      st.positions.map (fun p => if p.id == pid then closeRow cp pnl t p else p) }

/-- `UPDATE users SET balance = balance + ? WHERE id = ?`. -/
def addBalance (uid : ℕ) (amount : ℚ) (st : DBState) : DBState :=
  { st with users :=
      st.users.map (fun u => if u.id == uid then { u with balance := u.balance + amount } else u) }

/-- `UPDATE users SET balance = balance - ? WHERE id = ?`. -/
def subBalance (uid : ℕ) (amount : ℚ) (st : DBState) : DBState :=
  { st with users :=
      st.users.map (fun u => if u.id == uid then { u with balance := u.balance - amount } else u) }

/-- Models `x || null` applied to a nullable numeric request field:
a missing value and `0` both become `null`. -/
def jsOrNull : Option ℚ → Option ℚ
  | none => none
  | some v => if v = 0 then none else some v

/-- The body of an open-position request. -/
structure OpenReq where
  asset : String
  size : ℚ
  type : PosType
  entry_price : ℚ
  take_profit : Option ℚ
  stop_loss : Option ℚ
deriving Repr, DecidableEq

/-- Outcome of `POST /api/positions/open`.  `noUser` stands for the
uncaught exception the handler raises when the authenticated user row is
missing (observable state is unchanged in that case). -/
inductive OpenOutcome where
  | ok (id : ℕ)
  | insufficientMargin
  | noUser
deriving Repr, DecidableEq

/-- The row inserted by `POST /api/positions/open`. -/
def newPositionOf (st : DBState) (uid : ℕ) (r : OpenReq) (t : ℕ) : Position :=
  { id := st.nextPosId, user_id := uid, asset := r.asset, size := r.size,
    type := r.type, entry_price := r.entry_price,
    take_profit := jsOrNull r.take_profit, stop_loss := jsOrNull r.stop_loss,
    close_price := none, status := PStatus.«open», pnl := 0,
    created_at := t, closed_at := none }

/-- `POST /api/positions/open`: reads the balance, computes the required
margin `size * entry_price / 100` (1:100 leverage), rejects when the
balance is below it, otherwise inserts the position row.  The balance is
never written. -/
def openPosition (st : DBState) (uid : ℕ) (r : OpenReq) (t : ℕ) :
    DBState × OpenOutcome :=
  match findUser st uid with
  | none => (st, OpenOutcome.noUser)
  | some user =>
    let marginRequired := r.size * r.entry_price / 100
    if user.balance < marginRequired then
      (st, OpenOutcome.insufficientMargin)
    else
      ({ st with positions := st.positions ++ [newPositionOf st uid r t],
                 nextPosId := st.nextPosId + 1 },
       OpenOutcome.ok st.nextPosId)

/-- The settlement unit of the TP/SL branch of the tick callback: computes
the pnl and runs both UPDATE statements inside one `db.transaction`. -/
def settleAuto (st : DBState) (pos : Position) (closePrice : ℚ) (t : ℕ)
    (faultAt : Option ℕ) : DBState :=
  let pnl := pnlAutoClose pos closePrice
  dbTransaction [updatePositionRow pos.id closePrice pnl t,
                 addBalance pos.user_id pnl] faultAt st

/-- Outcome of `POST /api/positions/close`. -/
inductive CloseOutcome where
  | ok (pnl : ℚ)
  | invalidPosition
  | fault
deriving Repr, DecidableEq

/-- `POST /api/positions/close`: looks the position up by id and owner,
rejects when missing or not open, otherwise computes the pnl from the
caller-supplied close price and runs both UPDATE statements inside one
`db.transaction`. -/
def closePosition (st : DBState) (uid pid : ℕ) (close_price : ℚ) (t : ℕ)
    (faultAt : Option ℕ) : DBState × CloseOutcome :=
  match st.positions.find? (fun p => p.id == pid && p.user_id == uid) with
  | none => (st, CloseOutcome.invalidPosition)
  | some pos =>
    if pos.status ≠ PStatus.«open» then (st, CloseOutcome.invalidPosition)
    else
      let pnl := pnlManualClose pos close_price
      (dbTransaction [updatePositionRow pid close_price pnl t,
                      addBalance uid pnl] faultAt st,
       match faultAt with
       | none => CloseOutcome.ok pnl
       | some _ => CloseOutcome.fault)

/-- `INSERT INTO transactions (...) VALUES (?, ..., 'pending')` as a
database step. -/
def insertTx (ty : TxType) (uid : ℕ) (amount : ℚ) (method reference : String)
    (st : DBState) : DBState :=
  { st with
      transactions := st.transactions ++
        [{ id := st.nextTxId, user_id := uid, type := ty, amount := amount,
           status := TxStatus.pending, method := method, reference := reference }],
      nextTxId := st.nextTxId + 1 }

/-- `POST /api/wallet/deposit`: inserts a pending deposit row; nothing else
is touched (no `db.transaction`, no balance write). -/
def walletDeposit (st : DBState) (uid : ℕ) (amount : ℚ)
    (method reference : String) : DBState :=
  insertTx TxType.deposit uid amount method reference st

/-- Outcome of `POST /api/wallet/withdraw`. -/
inductive WithdrawOutcome where
  | ok
  | insufficientBalance
  | noUser
deriving Repr, DecidableEq

/-- `POST /api/wallet/withdraw`: rejects when the balance is below the
amount, otherwise inserts a pending withdrawal row and deducts the balance
inside one `db.transaction`. -/
def walletWithdraw (st : DBState) (uid : ℕ) (amount : ℚ)
    (method reference : String) (faultAt : Option ℕ) : DBState × WithdrawOutcome :=
  match findUser st uid with
  | none => (st, WithdrawOutcome.noUser)
  | some user =>
    if user.balance < amount then (st, WithdrawOutcome.insufficientBalance)
    else
      (dbTransaction [insertTx TxType.withdrawal uid amount method reference,
                      subBalance uid amount] faultAt st,
       WithdrawOutcome.ok)

/-- `UPDATE transactions SET status = 'approved' WHERE id = ?`. -/
def setTxApproved (txId : ℕ) (st : DBState) : DBState :=
  { st with transactions :=
      st.transactions.map (fun x => if x.id == txId then { x with status := TxStatus.approved } else x) }

/-- Outcome of `POST /api/admin/transactions/approve`. -/
inductive ApproveOutcome where
  | ok
  | invalidTx
deriving Repr, DecidableEq

/-- `POST /api/admin/transactions/approve`: requires an existing pending
transaction; marks it approved and, only for a deposit, credits the
owner's balance, both inside one `db.transaction`.  For a withdrawal the
balance is untouched (it was deducted at request time). -/
def approveTx (st : DBState) (txId : ℕ) (faultAt : Option ℕ) :
    DBState × ApproveOutcome :=
  match getTx st txId with
  | none => (st, ApproveOutcome.invalidTx)
  | some tx =>
    if tx.status = TxStatus.pending then
      (dbTransaction
        ([setTxApproved txId] ++
          (if tx.type = TxType.deposit then [addBalance tx.user_id tx.amount] else []))
        faultAt st,
       ApproveOutcome.ok)
    else (st, ApproveOutcome.invalidTx)

/-! Helper lemmas. -/

theorem volatility_nonneg (asset : String) : 0 ≤ volatility asset := by
  unfold volatility
  split <;> norm_num

theorem bumpLast_concat (price : ℚ) (rest : List Candle) (last : Candle) :
    bumpLast price (rest ++ [last]) = rest ++ [bump price last] := by
  induction rest with
  | nil => rfl
  | cons a t ih =>
    cases t with
    | nil => rfl
    | cons b t2 =>
      show a :: bumpLast price ((b :: t2) ++ [last]) = a :: ((b :: t2) ++ [bump price last])
      rw [ih]

theorem ohlcOK_newCandle (t : ℕ) (price : ℚ) : ohlcOK (newCandle t price) := by
  refine ⟨le_refl _, le_refl _, le_refl _, le_refl _⟩

theorem ohlcOK_bump (price : ℚ) (c : Candle) (h : ohlcOK c) : ohlcOK (bump price c) := by
  obtain ⟨h1, h2, h3, h4⟩ := h
  exact ⟨le_trans (min_le_left _ _) h1, le_trans h2 (le_max_left _ _),
         min_le_right _ _, le_max_right _ _⟩

/-! Claim theorems. -/

/-- Claim C5 (amended): the generator's corruption guard resets the stored
price to the instrument's default exactly when the stored value is not a
number or is `NaN` (`typeof !== 'number' || isNaN`) — a finite non-positive
or infinite numeric value is NOT reset but perturbed; on a finite numeric
price the step adds `(u - 0.5) * (price * volatility)`, a perturbation
whose magnitude is bounded by `0.5 * volatility * |price|` for a draw
`u ∈ [0, 1]`; an infinite stored value passes the guard and is perturbed
following IEEE-754 (staying infinite or becoming `NaN`), so it is never
reset to the default; no error is ever raised (the step is a total
function). -/
theorem advance_guard_and_step (asset : String) (v : JSVal) (q u : ℚ)
    (h0 : 0 ≤ u) (h1 : u ≤ 1) :
    (jsCorrupted v = true → advance asset v u = JSVal.num (defaults asset)) ∧
    advance asset (JSVal.num q) u =
      JSVal.num (q + (u - 1 / 2) * (q * volatility asset)) ∧
    |(u - 1 / 2) * (q * volatility asset)| ≤ 1 / 2 * (volatility asset * |q|) ∧
    advance asset JSVal.posInf u =
      (if 1 / 2 < u then JSVal.posInf else JSVal.nan) ∧
    advance asset JSVal.negInf u =
      (if 1 / 2 < u then JSVal.negInf else JSVal.nan) ∧
    advance asset JSVal.posInf u ≠ JSVal.num (defaults asset) ∧
    advance asset JSVal.negInf u ≠ JSVal.num (defaults asset) := by
  refine ⟨?_, rfl, ?_, rfl, rfl, ?_, ?_⟩
  · intro hc
    cases v <;> simp [jsCorrupted] at hc <;> rfl
  · have hv : 0 ≤ volatility asset := volatility_nonneg asset
    have habs : |u - 1 / 2| ≤ 1 / 2 := abs_le.mpr ⟨by linarith, by linarith⟩
    calc |(u - 1 / 2) * (q * volatility asset)|
        = |u - 1 / 2| * (|q| * volatility asset) := by
          rw [abs_mul, abs_mul, abs_of_nonneg hv]
      _ ≤ 1 / 2 * (|q| * volatility asset) := by
          apply mul_le_mul_of_nonneg_right habs
          positivity
      _ = 1 / 2 * (volatility asset * |q|) := by ring
  · show (if 1 / 2 < u then JSVal.posInf else JSVal.nan) ≠ JSVal.num (defaults asset)
    split <;> simp
  · show (if 1 / 2 < u then JSVal.negInf else JSVal.nan) ≠ JSVal.num (defaults asset)
    split <;> simp

/-- Witness for C5: concrete application of the amended theorem. -/
theorem advance_guard_and_step_witness :
    advance "GOLD" JSVal.nan (1 / 2) = JSVal.num (defaults "GOLD") :=
  (advance_guard_and_step "GOLD" JSVal.nan 1 (1 / 2) (by norm_num) (by norm_num)).1 rfl

/-- Counterexample for C5 as stated: the stored price `-1` is a finite
NON-positive number, so the claim demands a reset to the default; the code
instead perturbs it (here with draw `u = 0`) to `-1999/2000`, which is not
the default. -/
theorem advance_negative_not_reset :
    advance "EUR/USD" (JSVal.num (-1)) 0 ≠ JSVal.num (defaults "EUR/USD") ∧
    advance "EUR/USD" (JSVal.num (-1)) 0 =
      JSVal.num (-1 + (0 - 1 / 2) * (-1 * volatility "EUR/USD")) := by
  have hv : volatility "EUR/USD" = 1 / 1000 := rfl
  constructor
  · show JSVal.num (-1 + (0 - 1 / 2) * (-1 * volatility "EUR/USD")) ≠
      JSVal.num (defaults "EUR/USD")
    rw [hv]
    simp only [defaults, ne_eq, JSVal.num.injEq]
    norm_num
  · rfl

/-- Claim C6: the automatic TP/SL evaluator and the manual close endpoint
compute realized pnl by the same formula: `(close - entry) * size` for a
long (BUY) position, `(entry - close) * size` for a short (SELL) one; the
two code paths agree on every input. -/
theorem pnl_paths_agree (pos : Position) (cp : ℚ) :
    pnlManualClose pos cp = pnlAutoClose pos cp ∧
    (pos.type = PosType.BUY →
        pnlAutoClose pos cp = (cp - pos.entry_price) * pos.size) ∧
    (pos.type = PosType.SELL →
        pnlAutoClose pos cp = (pos.entry_price - cp) * pos.size) := by
  refine ⟨?_, ?_, ?_⟩ <;>
    cases hp : pos.type <;>
      simp [pnlManualClose, pnlAutoClose, hp]

/-- Witness for C6. -/
theorem pnl_paths_agree_witness :
    pnlAutoClose
      ⟨1, 1, "EUR/USD", 2, PosType.BUY, 1, none, none, none,
        PStatus.«open», 0, 0, none⟩ 3 = (3 - 1) * 2 :=
  (pnl_paths_agree
    ⟨1, 1, "EUR/USD", 2, PosType.BUY, 1, none, none, none,
      PStatus.«open», 0, 0, none⟩ 3).2.1 rfl

/-- Claim C8 (amended): on a tick in which the stored price is an ordinary
number, every timeframe series of the asset receives exactly one
aggregation update, all with the same perturbed price and clock reading —
none skipped, none coalesced; but on the tick in which a corrupted stored
value (any value the guard flags: `NaN` or a non-number) is self-healed,
the callback returns early and every candle series of that asset is left
untouched. -/
theorem tick_updates_all_timeframes (asset : String) (v : JSVal) (q u : ℚ)
    (now : ℕ) (cd : List (ℕ × List Candle)) :
    (tickAsset asset (JSVal.num q) cd u now).2 =
      cd.map (fun e =>
        (e.1, updateCandles e.1 (q + (u - 1 / 2) * (q * volatility asset)) now e.2)) ∧
    (tickAsset asset JSVal.nan cd u now).2 = cd ∧
    (tickAsset asset JSVal.nan cd u now).1 = JSVal.num (defaults asset) ∧
    (jsCorrupted v = true →
        (tickAsset asset v cd u now).2 = cd ∧
        (tickAsset asset v cd u now).1 = JSVal.num (defaults asset)) := by
  refine ⟨rfl, rfl, rfl, ?_⟩
  intro hc
  cases v with
  | num q2 => simp [jsCorrupted] at hc
  | nan => exact ⟨rfl, rfl⟩
  | undef => exact ⟨rfl, rfl⟩
  | posInf => simp [jsCorrupted] at hc
  | negInf => simp [jsCorrupted] at hc

/-- Witness for C8: the `undefined` corruption case discharged concretely —
the self-heal tick leaves the series untouched and restores the default. -/
theorem tick_updates_all_timeframes_witness :
    (tickAsset "OIL" JSVal.undef [(60, [newCandle 0 2])] 0 7).2 =
      [(60, [newCandle 0 2])] ∧
    (tickAsset "OIL" JSVal.undef [(60, [newCandle 0 2])] 0 7).1 =
      JSVal.num (defaults "OIL") :=
  (tick_updates_all_timeframes "OIL" JSVal.undef 0 0 7
    [(60, [newCandle 0 2])]).2.2.2 rfl

/-- Counterexample for C8 as stated: a self-heal tick skips the candle
update.  With a corrupted (`NaN`) stored price and an empty 60-second
series, the tick leaves the series empty, while one aggregation update at
the healed price would have appended a candle. -/
theorem tick_skips_candles_on_heal :
    (tickAsset "EUR/USD" JSVal.nan [(60, [])] 0 1000).2 = [(60, [])] ∧
    updateCandles 60 (defaults "EUR/USD") 1000 [] ≠ [] := by
  constructor
  · rfl
  · decide

/-- Claim C3: one aggregation step with
`periodStart = floor(now / tfSeconds) * tfSeconds`: on an empty series a
fresh candle with `open = high = low = close = price` is appended; when the
last candle is older than `periodStart` a fresh candle is appended (and the
oldest entry evicted if the length then exceeds 200); otherwise the last
candle is updated in place with `high = max(high, price)`,
`low = min(low, price)`, `close = price`, its `open` and `time` unchanged. -/
theorem updateCandles_step (tfSeconds : ℕ) (price : ℚ) (now : ℕ)
    (cs rest : List Candle) (last : Candle) :
    (cs = [] → updateCandles tfSeconds price now cs =
        [newCandle (now / tfSeconds * tfSeconds) price]) ∧
    (cs = rest ++ [last] → last.time < now / tfSeconds * tfSeconds →
        updateCandles tfSeconds price now cs =
          (if 200 < (cs ++ [newCandle (now / tfSeconds * tfSeconds) price]).length
           then (cs ++ [newCandle (now / tfSeconds * tfSeconds) price]).drop 1
           else cs ++ [newCandle (now / tfSeconds * tfSeconds) price])) ∧
    (cs = rest ++ [last] → ¬ last.time < now / tfSeconds * tfSeconds →
        updateCandles tfSeconds price now cs =
          rest ++ [{ last with high := max last.high price,
                               low := min last.low price, close := price }]) := by
  refine ⟨?_, ?_, ?_⟩
  · intro h
    subst h
    rfl
  · intro h hlt
    subst h
    have hn : needNew (rest ++ [last]) (now / tfSeconds * tfSeconds) = true := by
      unfold needNew
      rw [List.getLast?_concat]
      simpa using hlt
    unfold updateCandles
    simp only [hn, if_true]
  · intro h hlt
    subst h
    have hn : needNew (rest ++ [last]) (now / tfSeconds * tfSeconds) = false := by
      unfold needNew
      rw [List.getLast?_concat]
      simpa using hlt
    unfold updateCandles
    simp only [hn, Bool.false_eq_true, if_false]
    exact bumpLast_concat price rest last

/-- Witness for C3. -/
theorem updateCandles_step_witness :
    updateCandles 60 5 125 [] = [newCandle 120 5] ∧
    updateCandles 60 7 130 [newCandle 120 5] =
      [{ newCandle 120 5 with high := max 5 7, low := min 5 7, close := 7 }] := by
  constructor
  · exact (updateCandles_step 60 5 125 [] [] (newCandle 0 0)).1 rfl
  · exact (updateCandles_step 60 7 130 [newCandle 120 5] [] (newCandle 120 5)).2.2
      rfl (by decide)

/-- Claim C1: per-position TP/SL evaluation each tick.  For a long (BUY)
position the evaluator closes at the take-profit price when it is set and
`current ≥ takeProfit`, otherwise at the stop-loss price when it is set and
`current ≤ stopLoss` (take-profit checked first as the fixed tie-break);
for a short (SELL) position the comparisons invert; the closure price is
exactly the threshold value, never the instantaneous market price; with
neither threshold set the position is never auto-closed.  The hypotheses
exclude the stored value `0`, which the open endpoint never stores (it
normalizes `0` to `null`, claim C9). -/
theorem evalClose_thresholds (pos : Position) (current : ℚ)
    (htp0 : pos.take_profit ≠ some 0) (hsl0 : pos.stop_loss ≠ some 0) :
    (∀ tp, pos.type = PosType.BUY → pos.take_profit = some tp → current ≥ tp →
        evalClose pos current = some tp) ∧
    (∀ sl, pos.type = PosType.BUY → pos.stop_loss = some sl → current ≤ sl →
        (∀ tp, pos.take_profit = some tp → current < tp) →
        evalClose pos current = some sl) ∧
    (∀ tp, pos.type = PosType.SELL → pos.take_profit = some tp → current ≤ tp →
        evalClose pos current = some tp) ∧
    (∀ sl, pos.type = PosType.SELL → pos.stop_loss = some sl → current ≥ sl →
        (∀ tp, pos.take_profit = some tp → tp < current) →
        evalClose pos current = some sl) ∧
    (pos.take_profit = none → pos.stop_loss = none →
        evalClose pos current = none) := by
  refine ⟨?_, ?_, ?_, ?_, ?_⟩
  · intro tp hty htp hge
    have hne : tp ≠ 0 := fun h => htp0 (h ▸ htp)
    simp [evalClose, hty, htp, truthy, hne, hge]
  · intro sl hty hsl hle hmiss
    have hne : sl ≠ 0 := fun h => hsl0 (h ▸ hsl)
    cases htp : pos.take_profit with
    | none => simp [evalClose, hty, htp, hsl, truthy, hne, hle]
    | some tp =>
      have hlt : current < tp := hmiss tp htp
      simp [evalClose, hty, htp, hsl, truthy, hne, hle, not_le.mpr hlt]
  · intro tp hty htp hle
    have hne : tp ≠ 0 := fun h => htp0 (h ▸ htp)
    simp [evalClose, hty, htp, truthy, hne, hle]
  · intro sl hty hsl hge hmiss
    have hne : sl ≠ 0 := fun h => hsl0 (h ▸ hsl)
    cases htp : pos.take_profit with
    | none => simp [evalClose, hty, htp, hsl, truthy, hne, hge]
    | some tp =>
      have hlt : tp < current := hmiss tp htp
      simp [evalClose, hty, htp, hsl, truthy, hne, hge, not_le.mpr hlt]
  · intro htp hsl
    cases hty : pos.type <;> simp [evalClose, hty, htp, hsl, truthy]

/-- Witness for C1: a long position with take-profit 2 closes at exactly 2
when the market reaches 3. -/
theorem evalClose_thresholds_witness :
    evalClose
      ⟨1, 1, "EUR/USD", 1, PosType.BUY, 1, some 2, some 1, none,
        PStatus.«open», 0, 0, none⟩ 3 = some 2 :=
  (evalClose_thresholds
    ⟨1, 1, "EUR/USD", 1, PosType.BUY, 1, some 2, some 1, none,
      PStatus.«open», 0, 0, none⟩ 3
    (by simp) (by simp)).1 2 rfl rfl (by norm_num)

/-- Claim C9: a take-profit or stop-loss of exactly `0` is treated as not
set throughout: the open endpoint normalizes `0` (and a missing value) to
`null` in the inserted row, and on the evaluator side a `0` (or `null`)
threshold never triggers automatic closure at any price — when both are `0`
or `null` the evaluator never closes; with a `0`-or-`null` take-profit any
closure it does produce comes from the stop-loss; and symmetrically, with a
`0`-or-`null` stop-loss any closure it does produce comes from the
take-profit. -/
theorem zero_threshold_ignored (st : DBState) (uid : ℕ) (r : OpenReq) (t : ℕ)
    (pos : Position) (current : ℚ) :
    (r.take_profit = some 0 → (newPositionOf st uid r t).take_profit = none) ∧
    (r.stop_loss = some 0 → (newPositionOf st uid r t).stop_loss = none) ∧
    ((pos.take_profit = some 0 ∨ pos.take_profit = none) →
     (pos.stop_loss = some 0 ∨ pos.stop_loss = none) →
        evalClose pos current = none) ∧
    ((pos.take_profit = some 0 ∨ pos.take_profit = none) →
        ∀ cp, evalClose pos current = some cp → pos.stop_loss = some cp) ∧
    ((pos.stop_loss = some 0 ∨ pos.stop_loss = none) →
        ∀ cp, evalClose pos current = some cp → pos.take_profit = some cp) := by
  refine ⟨?_, ?_, ?_, ?_, ?_⟩
  · intro h
    simp [newPositionOf, jsOrNull, h]
  · intro h
    simp [newPositionOf, jsOrNull, h]
  · intro htp hsl
    rcases htp with htp | htp <;> rcases hsl with hsl | hsl <;>
      cases hty : pos.type <;>
        simp [evalClose, hty, htp, hsl, truthy]
  · intro htp cp hcp
    have htr : truthy pos.take_profit = false := by
      rcases htp with h | h <;> simp [truthy, h]
    cases hty : pos.type <;>
      all_goals
        unfold evalClose at hcp
        rw [hty, htr] at hcp
        simp only [Bool.false_and, Bool.false_eq_true, if_false] at hcp
        split at hcp
        · exact hcp
        · exact absurd hcp (by simp)
  · intro hsl cp hcp
    have htr : truthy pos.stop_loss = false := by
      rcases hsl with h | h <;> simp [truthy, h]
    cases hty : pos.type <;>
      all_goals
        unfold evalClose at hcp
        rw [hty, htr] at hcp
        simp only [Bool.false_and, Bool.false_eq_true, if_false] at hcp
        split at hcp
        · exact hcp
        · exact absurd hcp (by simp)

/-- Witness for C9. -/
theorem zero_threshold_ignored_witness :
    evalClose
      ⟨1, 1, "EUR/USD", 1, PosType.BUY, 1, some 0, some 0, none,
        PStatus.«open», 0, 0, none⟩ 5 = none :=
  (zero_threshold_ignored
    ⟨[], [], [], 1, 1⟩ 1
    ⟨"EUR/USD", 1, PosType.BUY, 1, none, none⟩ 0
    ⟨1, 1, "EUR/USD", 1, PosType.BUY, 1, some 0, some 0, none,
      PStatus.«open», 0, 0, none⟩ 5).2.2.1 (Or.inl rfl) (Or.inl rfl)

/-- Claim C7: opening a position computes the required margin as
`size * entry_price / 100` (1:100 leverage); when the account balance is
below this margin the request is rejected and neither the balance nor the
positions table changes; when the balance suffices the position row is
inserted and the balance is NOT debited. -/
theorem openPosition_margin_check (st : DBState) (uid : ℕ) (r : OpenReq)
    (t : ℕ) (user : User) (hu : findUser st uid = some user) :
    (user.balance < r.size * r.entry_price / 100 →
        openPosition st uid r t = (st, OpenOutcome.insufficientMargin)) ∧
    (¬ user.balance < r.size * r.entry_price / 100 →
        (openPosition st uid r t).1.users = st.users ∧
        (openPosition st uid r t).1.positions =
          st.positions ++ [newPositionOf st uid r t] ∧
        (openPosition st uid r t).2 = OpenOutcome.ok st.nextPosId) := by
  constructor
  · intro h
    unfold openPosition
    rw [hu]
    dsimp only
    rw [if_pos h]
  · intro h
    unfold openPosition
    rw [hu]
    dsimp only
    rw [if_neg h]
    exact ⟨rfl, rfl, rfl⟩

/-- Witness for C7: with balance 10000 a request needing margin 50000 is
rejected and the state is unchanged. -/
theorem openPosition_margin_check_witness :
    openPosition ⟨[⟨1, 10000⟩], [], [], 1, 1⟩ 1
      ⟨"BTC/USD", 100, PosType.BUY, 50000, none, none⟩ 0 =
      (⟨[⟨1, 10000⟩], [], [], 1, 1⟩, OpenOutcome.insufficientMargin) :=
  (openPosition_margin_check ⟨[⟨1, 10000⟩], [], [], 1, 1⟩ 1
    ⟨"BTC/USD", 100, PosType.BUY, 50000, none, none⟩ 0 ⟨1, 10000⟩ rfl).1
    (by norm_num)

end FxTrader

namespace FxTrader

theorem find?_map_ite {α : Type} (l : List α) (key : α → ℕ) (k : ℕ)
    (upd : α → α) (hk : ∀ a, key (upd a) = key a) :
    (l.map (fun a => if key a == k then upd a else a)).find? (fun a => key a == k) =
      (l.find? (fun a => key a == k)).map upd := by
  induction l with
  | nil => rfl
  | cons a t ih =>
    cases h : key a == k with
    | true =>
      have h1 : (key (upd a) == k) = true := by rw [hk a]; exact h
      rw [List.map_cons, if_pos h]
      rw [@List.find?_cons_of_pos α (fun x => key x == k) (upd a)
            (t.map (fun x => if (key x == k) = true then upd x else x)) h1,
          @List.find?_cons_of_pos α (fun x => key x == k) a t h]
      rfl
    | false =>
      have hn : ¬ ((key a == k) = true) := by simp [h]
      rw [List.map_cons, if_neg hn]
      rw [@List.find?_cons_of_neg α (fun x => key x == k) a
            (t.map (fun x => if (key x == k) = true then upd x else x)) hn,
          @List.find?_cons_of_neg α (fun x => key x == k) a t hn]
      exact ih

theorem getPosition_updateRow (st : DBState) (pid : ℕ) (cp pnl : ℚ) (t : ℕ) :
    getPosition (updatePositionRow pid cp pnl t st) pid =
      (getPosition st pid).map (closeRow cp pnl t) := by
  unfold getPosition updatePositionRow
  exact find?_map_ite st.positions Position.id pid (closeRow cp pnl t) (fun p => rfl)

theorem balanceOf_addBalance (st : DBState) (uid : ℕ) (amt : ℚ) :
    balanceOf (addBalance uid amt st) uid =
      (balanceOf st uid).map (fun b => b + amt) := by
  unfold balanceOf findUser addBalance
  rw [find?_map_ite st.users User.id uid
    (fun u => { u with balance := u.balance + amt }) (fun u => rfl)]
  cases st.users.find? (fun u => u.id == uid) <;> rfl

theorem getTx_setTxApproved (st : DBState) (txId : ℕ) :
    getTx (setTxApproved txId st) txId =
      (getTx st txId).map (fun x => { x with status := TxStatus.approved }) := by
  unfold getTx setTxApproved
  exact find?_map_ite st.transactions Tx.id txId
    (fun x => { x with status := TxStatus.approved }) (fun x => rfl)

/-- Claim C2: settlement of a position closure is atomic on both paths.
A fault anywhere inside the unit leaves the whole database — in particular
the position row (still open) and the owner's balance — exactly as before;
a fault-free unit performs both effects: the position row gets status
closed, the close price, the pnl, and the closure timestamp, and the
owner's balance increases by the pnl.  Covers the automatic TP/SL path
(`settleAuto`) and the manual endpoint (`closePosition`). -/
theorem settlement_atomic (st : DBState) (pos : Position) (closePrice cp : ℚ)
    (t k uid pid : ℕ) :
    (settleAuto st pos closePrice t (some k) = st) ∧
    ((closePosition st uid pid cp t (some k)).1 = st) ∧
    (∀ p0, getPosition st pos.id = some p0 →
        getPosition (settleAuto st pos closePrice t none) pos.id =
          some (closeRow closePrice (pnlAutoClose pos closePrice) t p0)) ∧
    (∀ u0, findUser st pos.user_id = some u0 →
        balanceOf (settleAuto st pos closePrice t none) pos.user_id =
          some (u0.balance + pnlAutoClose pos closePrice)) ∧
    (st.positions.find? (fun p => p.id == pid && p.user_id == uid) = some pos →
     pos.status = PStatus.«open» →
        (closePosition st uid pid cp t none).2 =
          CloseOutcome.ok (pnlManualClose pos cp) ∧
        (∀ p0, getPosition st pid = some p0 →
            getPosition (closePosition st uid pid cp t none).1 pid =
              some (closeRow cp (pnlManualClose pos cp) t p0)) ∧
        (∀ u0, findUser st uid = some u0 →
            balanceOf (closePosition st uid pid cp t none).1 uid =
              some (u0.balance + pnlManualClose pos cp))) := by
  have hfault : ∀ st' uid' pid' cp', (closePosition st' uid' pid' cp' t (some k)).1 = st' := by
    intro st' uid' pid' cp'
    unfold closePosition
    cases st'.positions.find? (fun p => p.id == pid' && p.user_id == uid') with
    | none => rfl
    | some p =>
      dsimp only
      by_cases hs : p.status ≠ PStatus.«open»
      · rw [if_pos hs]
      · rw [if_neg hs]
        rfl
  refine ⟨rfl, hfault st uid pid cp, ?_, ?_, ?_⟩
  · intro p0 hp0
    show getPosition
      (addBalance pos.user_id (pnlAutoClose pos closePrice)
        (updatePositionRow pos.id closePrice (pnlAutoClose pos closePrice) t st))
      pos.id = _
    have husers : getPosition
        (addBalance pos.user_id (pnlAutoClose pos closePrice)
          (updatePositionRow pos.id closePrice (pnlAutoClose pos closePrice) t st))
        pos.id =
        getPosition
          (updatePositionRow pos.id closePrice (pnlAutoClose pos closePrice) t st)
          pos.id := rfl
    rw [husers, getPosition_updateRow, hp0]
    rfl
  · intro u0 hu0
    show balanceOf
      (addBalance pos.user_id (pnlAutoClose pos closePrice)
        (updatePositionRow pos.id closePrice (pnlAutoClose pos closePrice) t st))
      pos.user_id = _
    have hpos : findUser
        (updatePositionRow pos.id closePrice (pnlAutoClose pos closePrice) t st)
        pos.user_id = findUser st pos.user_id := rfl
    rw [balanceOf_addBalance]
    unfold balanceOf
    rw [hpos, hu0]
    rfl
  · intro hfind hopen
    have hne : ¬ pos.status ≠ PStatus.«open» := by simp [hopen]
    refine ⟨?_, ?_, ?_⟩
    · unfold closePosition
      rw [hfind]
      dsimp only
      rw [if_neg hne]
    · intro p0 hp0
      unfold closePosition
      rw [hfind]
      dsimp only
      rw [if_neg hne]
      show getPosition
        (addBalance uid (pnlManualClose pos cp)
          (updatePositionRow pid cp (pnlManualClose pos cp) t st)) pid = _
      have husers : getPosition
          (addBalance uid (pnlManualClose pos cp)
            (updatePositionRow pid cp (pnlManualClose pos cp) t st)) pid =
          getPosition (updatePositionRow pid cp (pnlManualClose pos cp) t st) pid := rfl
      rw [husers, getPosition_updateRow, hp0]
      rfl
    · intro u0 hu0
      unfold closePosition
      rw [hfind]
      dsimp only
      rw [if_neg hne]
      show balanceOf
        (addBalance uid (pnlManualClose pos cp)
          (updatePositionRow pid cp (pnlManualClose pos cp) t st)) uid = _
      have hpos : findUser
          (updatePositionRow pid cp (pnlManualClose pos cp) t st) uid =
          findUser st uid := rfl
      rw [balanceOf_addBalance]
      unfold balanceOf
      rw [hpos, hu0]
      rfl

/-- Witness for C2: a fault mid-settlement leaves the concrete database
unchanged; the fault-free settlement credits the pnl. -/
theorem settlement_atomic_witness :
    settleAuto
        ⟨[⟨1, 100⟩],
         [⟨1, 1, "GOLD", 2, PosType.BUY, 4, none, none, none,
           PStatus.«open», 0, 0, none⟩], [], 2, 1⟩
        ⟨1, 1, "GOLD", 2, PosType.BUY, 4, none, none, none,
          PStatus.«open», 0, 0, none⟩ 5 10 (some 0) =
      ⟨[⟨1, 100⟩],
       [⟨1, 1, "GOLD", 2, PosType.BUY, 4, none, none, none,
         PStatus.«open», 0, 0, none⟩], [], 2, 1⟩ ∧
    balanceOf
      (settleAuto
        ⟨[⟨1, 100⟩],
         [⟨1, 1, "GOLD", 2, PosType.BUY, 4, none, none, none,
           PStatus.«open», 0, 0, none⟩], [], 2, 1⟩
        ⟨1, 1, "GOLD", 2, PosType.BUY, 4, none, none, none,
          PStatus.«open», 0, 0, none⟩ 5 10 none) 1 =
      some (100 +
        pnlAutoClose
          ⟨1, 1, "GOLD", 2, PosType.BUY, 4, none, none, none,
            PStatus.«open», 0, 0, none⟩ 5) := by
  constructor
  · exact (settlement_atomic
      ⟨[⟨1, 100⟩],
       [⟨1, 1, "GOLD", 2, PosType.BUY, 4, none, none, none,
         PStatus.«open», 0, 0, none⟩], [], 2, 1⟩
      ⟨1, 1, "GOLD", 2, PosType.BUY, 4, none, none, none,
        PStatus.«open», 0, 0, none⟩ 5 5 10 0 1 1).1
  · exact (settlement_atomic
      ⟨[⟨1, 100⟩],
       [⟨1, 1, "GOLD", 2, PosType.BUY, 4, none, none, none,
         PStatus.«open», 0, 0, none⟩], [], 2, 1⟩
      ⟨1, 1, "GOLD", 2, PosType.BUY, 4, none, none, none,
        PStatus.«open», 0, 0, none⟩ 5 5 10 0 1 1).2.2.2.1 ⟨1, 100⟩ rfl

/-- Claim C10: a deposit request only inserts a pending transaction row —
every balance, the positions table, and the existing transactions are
unchanged; the balance increases by the deposit amount when an admin
approves the pending deposit (which also marks it approved); approving a
pending withdrawal changes only that transaction's status and leaves every
balance (and the positions table) unchanged. -/
theorem wallet_balance_frame (st : DBState) (uid txId : ℕ) (amount : ℚ)
    (method reference : String) (tx : Tx) :
    ((walletDeposit st uid amount method reference).users = st.users) ∧
    ((walletDeposit st uid amount method reference).positions = st.positions) ∧
    ((walletDeposit st uid amount method reference).transactions =
        st.transactions ++
          [⟨st.nextTxId, uid, TxType.deposit, amount, TxStatus.pending,
            method, reference⟩]) ∧
    (getTx st txId = some tx → tx.status = TxStatus.pending →
     tx.type = TxType.deposit →
        ∀ u0, findUser st tx.user_id = some u0 →
          balanceOf (approveTx st txId none).1 tx.user_id =
            some (u0.balance + tx.amount)) ∧
    (getTx st txId = some tx → tx.status = TxStatus.pending →
     tx.type = TxType.deposit →
        getTx (approveTx st txId none).1 txId =
          some { tx with status := TxStatus.approved }) ∧
    (getTx st txId = some tx → tx.status = TxStatus.pending →
     tx.type = TxType.withdrawal →
        (approveTx st txId none).1.users = st.users ∧
        (approveTx st txId none).1.positions = st.positions ∧
        (approveTx st txId none).1.transactions =
          st.transactions.map
            (fun x => if x.id == txId then { x with status := TxStatus.approved } else x)) := by
  refine ⟨rfl, rfl, rfl, ?_, ?_, ?_⟩
  · intro hget hpend hdep u0 hu0
    unfold approveTx
    rw [hget]
    dsimp only
    rw [if_pos hpend, if_pos hdep]
    show balanceOf (addBalance tx.user_id tx.amount (setTxApproved txId st)) tx.user_id = _
    rw [balanceOf_addBalance]
    have husers : balanceOf (setTxApproved txId st) tx.user_id =
        balanceOf st tx.user_id := rfl
    rw [husers]
    unfold balanceOf
    rw [hu0]
    rfl
  · intro hget hpend hdep
    unfold approveTx
    rw [hget]
    dsimp only
    rw [if_pos hpend, if_pos hdep]
    show getTx (addBalance tx.user_id tx.amount (setTxApproved txId st)) txId = _
    have htxs : getTx (addBalance tx.user_id tx.amount (setTxApproved txId st)) txId =
        getTx (setTxApproved txId st) txId := rfl
    rw [htxs, getTx_setTxApproved, hget]
    rfl
  · intro hget hpend hwd
    have hnd : tx.type ≠ TxType.deposit := by rw [hwd]; intro h; cases h
    unfold approveTx
    rw [hget]
    dsimp only
    rw [if_pos hpend, if_neg hnd]
    exact ⟨rfl, rfl, rfl⟩

/-- Witness for C10: approving the concrete pending deposit credits the
balance. -/
theorem wallet_balance_frame_witness :
    balanceOf
      (approveTx
        ⟨[⟨1, 50⟩], [],
         [⟨1, 1, TxType.deposit, 25, TxStatus.pending, "mpesa", "r1"⟩], 1, 2⟩
        1 none).1 1 = some (50 + 25) :=
  (wallet_balance_frame
    ⟨[⟨1, 50⟩], [],
     [⟨1, 1, TxType.deposit, 25, TxStatus.pending, "mpesa", "r1"⟩], 1, 2⟩
    1 1 25 "m" "r"
    ⟨1, 1, TxType.deposit, 25, TxStatus.pending, "mpesa", "r1"⟩).2.2.2.1
    rfl rfl rfl ⟨1, 50⟩ rfl

theorem seriesInv_nil (tfSeconds : ℕ) : seriesInv tfSeconds [] := by
  refine ⟨?_, List.chain'_nil, ?_, ?_⟩ <;> simp

theorem seriesInv_step (tfSeconds : ℕ) (price : ℚ) (now : ℕ) (cs : List Candle)
    (h : seriesInv tfSeconds cs) :
    seriesInv tfSeconds (updateCandles tfSeconds price now cs) := by
  obtain ⟨hohlc, hchain, hmod, hlen⟩ := h
  unfold updateCandles
  by_cases hn : needNew cs (now / tfSeconds * tfSeconds)
  · rw [if_pos hn]
    have hlast : ∀ x, cs.getLast? = some x → x.time < now / tfSeconds * tfSeconds := by
      intro x hx
      unfold needNew at hn
      rw [hx] at hn
      simpa using hn
    have hohlc2 : ∀ c ∈ cs ++ [newCandle (now / tfSeconds * tfSeconds) price],
        ohlcOK c := by
      intro c hc
      rcases List.mem_append.mp hc with hmem | hmem
      · exact hohlc c hmem
      · rw [List.mem_singleton.mp hmem]
        exact ohlcOK_newCandle _ _
    have hchain2 : (cs ++ [newCandle (now / tfSeconds * tfSeconds) price]).Chain'
        (fun a b => a.time < b.time) := by
      rw [List.chain'_append]
      refine ⟨hchain, List.chain'_singleton _, ?_⟩
      intro x hx y hy
      have hyy : newCandle (now / tfSeconds * tfSeconds) price = y := by
        simpa using hy
      subst hyy
      exact hlast x (Option.mem_def.mp hx)
    have hmod2 : ∀ c ∈ cs ++ [newCandle (now / tfSeconds * tfSeconds) price],
        c.time % tfSeconds = 0 := by
      intro c hc
      rcases List.mem_append.mp hc with hmem | hmem
      · exact hmod c hmem
      · rw [List.mem_singleton.mp hmem]
        exact Nat.mul_mod_left (now / tfSeconds) tfSeconds
    by_cases hl : 200 < (cs ++ [newCandle (now / tfSeconds * tfSeconds) price]).length
    · rw [if_pos hl]
      refine ⟨?_, ?_, ?_, ?_⟩
      · intro c hc
        exact hohlc2 c (List.mem_of_mem_drop hc)
      · rw [List.drop_one]
        exact hchain2.tail
      · intro c hc
        exact hmod2 c (List.mem_of_mem_drop hc)
      · rw [List.length_drop]
        simp only [List.length_append, List.length_singleton]
        omega
    · rw [if_neg hl]
      refine ⟨hohlc2, hchain2, hmod2, ?_⟩
      omega
  · rw [if_neg hn]
    rcases List.eq_nil_or_concat' cs with hnil | ⟨rest, last, hcs⟩
    · subst hnil
      exact absurd rfl hn
    · subst hcs
      rw [bumpLast_concat]
      have hlast : ohlcOK last := hohlc last (by simp)
      refine ⟨?_, ?_, ?_, ?_⟩
      · intro c hc
        rcases List.mem_append.mp hc with hmem | hmem
        · exact hohlc c (List.mem_append_left _ hmem)
        · rw [List.mem_singleton.mp hmem]
          exact ohlcOK_bump price last hlast
      · rw [List.chain'_append] at hchain ⊢
        obtain ⟨hc1, _, hc3⟩ := hchain
        refine ⟨hc1, List.chain'_singleton _, ?_⟩
        intro x hx y hy
        have hyy : bump price last = y := by simpa using hy
        subst hyy
        exact hc3 x hx last (by simp)
      · intro c hc
        rcases List.mem_append.mp hc with hmem | hmem
        · exact hmod c (List.mem_append_left _ hmem)
        · rw [List.mem_singleton.mp hmem]
          exact hmod last (by simp)
      · simpa using hlen

theorem seriesInv_foldl (tfSeconds : ℕ) (ticks : List (ℚ × ℕ)) (cs : List Candle)
    (h : seriesInv tfSeconds cs) :
    seriesInv tfSeconds
      (ticks.foldl (fun s t => updateCandles tfSeconds t.1 t.2 s) cs) := by
  induction ticks generalizing cs with
  | nil => exact h
  | cons a t ih => exact ih _ (seriesInv_step tfSeconds a.1 a.2 cs h)

/-- Claim C4: for every candle series reachable from the empty series by
any sequence of ticks, every candle satisfies `low ≤ open ≤ high` and
`low ≤ close ≤ high`, the `time` values are strictly increasing and each is
a multiple of the timeframe duration, and the length never exceeds 200;
the single aggregation step preserves this invariant, on overflow (length
already 200 and a period boundary crossed) exactly the first entry is
evicted, and under the invariant the first entry is the strictly oldest
one. -/
theorem candle_series_invariants (tfSeconds : ℕ) (ticks : List (ℚ × ℕ))
    (price : ℚ) (now : ℕ) (cs : List Candle) (hd : Candle) :
    seriesInv tfSeconds (runTicks tfSeconds ticks) ∧
    (seriesInv tfSeconds cs →
        seriesInv tfSeconds (updateCandles tfSeconds price now cs)) ∧
    (cs.length = 200 → needNew cs (now / tfSeconds * tfSeconds) = true →
        updateCandles tfSeconds price now cs =
          cs.drop 1 ++ [newCandle (now / tfSeconds * tfSeconds) price]) ∧
    (cs.Chain' (fun a b => a.time < b.time) → cs.head? = some hd →
        ∀ c ∈ cs.drop 1, hd.time < c.time) := by
  refine ⟨seriesInv_foldl tfSeconds ticks [] (seriesInv_nil tfSeconds),
    seriesInv_step tfSeconds price now cs, ?_, ?_⟩
  · intro hlen hn
    unfold updateCandles
    rw [if_pos hn]
    have hl : 200 < (cs ++ [newCandle (now / tfSeconds * tfSeconds) price]).length := by
      simp only [List.length_append, List.length_singleton, hlen]
      omega
    rw [if_pos hl]
    cases cs with
    | nil => simp at hlen
    | cons c0 cs' => rfl
  · intro hch hhd
    haveI : IsTrans Candle (fun a b => a.time < b.time) :=
      ⟨fun _ _ _ h1 h2 => lt_trans h1 h2⟩
    rw [List.chain'_iff_pairwise] at hch
    cases cs with
    | nil => cases hhd
    | cons c0 cs' =>
      have hc0 : c0 = hd := by simpa using hhd
      subst hc0
      intro c hc
      rw [List.drop_one] at hc
      exact (List.pairwise_cons.mp hch).1 c hc

/-- Witness for C4: the step invariant discharged on a concrete series. -/
theorem candle_series_invariants_witness :
    seriesInv 60 (updateCandles 60 5 125 [newCandle 60 3]) :=
  (candle_series_invariants 60 [] 5 125 [newCandle 60 3] (newCandle 60 3)).2.1
    ⟨by decide, List.chain'_singleton _, by decide, by decide⟩

end FxTrader
